import Mathlib

/-!
Verification development for the TaskFlow task-management application.
It embeds the client/server task reconciliation code and the local task
store into Lean and proves the reconciliation and persistence properties
stated in the specification.

Embedded source:
- src/js/store/TaskManager.js   (TaskManager.mergeTasks, createTask,
  updateTask, loadTasks)
- src/server/routes/auth.js     (the POST /sync merge endpoint)
- the StorageManager class (saveTasksLocalStorage, loadTasksLocalStorage,
  loadTasks, cleanup)

Timestamps (createdAt, updatedAt, dueDate) are modelled as integers, the
epoch-millisecond values of the ISO strings the source stores: the source
compares them through new Date(...), whose order on valid dates coincides
with the numeric order of the epoch values.  Serialization to and from the
localStorage string is modelled as the identity on structured data, which
is faithful because JSON round-trips string and null fields losslessly.
-/

namespace TaskFlow

/-- A task record as handled by the merge code on both the client
(TaskManager.mergeTasks) and the server (the /sync route). -/
structure Task where
  id : String
  title : String
  description : String
  category : String
  priority : String
  status : String
  dueDate : Option Int
  createdAt : Int
  updatedAt : Int
deriving Repr, DecidableEq

instance : Inhabited Task :=
  ⟨{ id := "", title := "", description := "", category := "",
     priority := "", status := "", dueDate := none,
     createdAt := 0, updatedAt := 0 }⟩

/-- A raw persisted entry as it can appear in the localStorage cell: any of
the fields may be absent (JSON has no schema, and load performs no per-field
validation).  Fields are modelled as optional strings; none is an absent or
null field. -/
structure RawTask where
  id : Option String
  title : Option String
  description : Option String
  category : Option String
  priority : Option String
  status : Option String
  dueDate : Option String
  createdAt : Option String
  updatedAt : Option String
deriving Repr, DecidableEq

/-- JavaScript truthiness of a possibly-absent string field: absent, null
and the empty string are falsy, every other string is truthy. -/
def truthy : Option String → Bool
  | none => false
  | some s => s ≠ ""

/-- The per-entry filter of StorageManager.cleanup:
task && typeof task === 'object' && task.id && task.title &&
task.createdAt && task.updatedAt. -/
def rawTaskValid (t : RawTask) : Bool :=
  truthy t.id && truthy t.title && truthy t.createdAt && truthy t.updatedAt

/-- The taskflow_tasks localStorage cell as seen by the StorageManager:
nothing stored (getItem returns null), a string JSON.parse rejects, a parsed
value without a tasks array, or the saved shape
with version: '1.0', timestamp: new Date().toISOString(), tasks: [...]. -/
inductive StoredCell (α : Type) where
  | empty : StoredCell α
  | malformed : StoredCell α
  | noTasksArray : StoredCell α
  | tasksArr (version : String) (timestamp : Int) (tasks : List α) : StoredCell α
deriving Repr, DecidableEq

/-- StorageManager.saveTasksLocalStorage: writes the cell wholesale with
the wrapper object version '1.0', the current timestamp, and the task
array. -/
def saveTasksLocalStorage {α : Type} (now : Int) (tasks : List α) : StoredCell α :=
  .tasksArr "1.0" now tasks

/-- StorageManager.loadTasksLocalStorage: returns [] when nothing is
stored, when JSON.parse throws, or when the parsed value has no tasks
array; otherwise returns parsed.tasks as stored, with no per-entry
validation. -/
def loadTasksLocalStorage {α : Type} : StoredCell α → List α
  | .tasksArr _ _ tasks => tasks
  | _ => []

/-- StorageManager.loadTasks on the localStorage backend
(useIndexedDB = false); the IndexedDB branch drives a browser API that is
outside this model. -/
def StorageManager.loadTasks {α : Type} (cell : StoredCell α) : List α :=
  loadTasksLocalStorage cell

/-- StorageManager.cleanup: loads the stored entries, filters out the ones
failing the required-field truthiness check, re-saves only when something
was dropped, and returns the valid entries. -/
def cleanup (now : Int) (cell : StoredCell RawTask) :
    List RawTask × StoredCell RawTask :=
  let tasks := StorageManager.loadTasks cell
  let validTasks := tasks.filter rawTaskValid
  if validTasks.length ≠ tasks.length then
    (validTasks, saveTasksLocalStorage now validTasks)
  else
    (validTasks, cell)

/-- JavaScript Map.set on an insertion-ordered map with unique keys (the
only maps the merge builds): replace the value in place when the key is
present, append otherwise. -/
def mapSet : List (String × Task) → String → Task → List (String × Task)
  | [], k, v => [(k, v)]
  | p :: rest, k, v => if p.1 = k then (k, v) :: rest else p :: mapSet rest k v

/-- JavaScript Map.get on the same maps. -/
def mapGet : List (String × Task) → String → Option Task
  | [], _ => none
  | p :: rest, k => if p.1 = k then some p.2 else mapGet rest k

/-- The first loop of TaskManager.mergeTasks:
localTasks.forEach(task => taskMap.set(task.id, task)). -/
def buildLocalMap (localTasks : List Task) : List (String × Task) :=
  localTasks.foldl (fun m t => mapSet m t.id t) []

/-- One iteration of the serverTasks.forEach loop of
TaskManager.mergeTasks.  The accumulator carries the task map and the list
of (id, localTask) arguments passed to the fire-and-forget
apiClient.updateTask calls the loop issues. -/
def mergeStep (acc : List (String × Task) × List (String × Task)) (task : Task) :
    List (String × Task) × List (String × Task) :=
  match mapGet acc.1 task.id with
  | none => (mapSet acc.1 task.id task, acc.2)
  | some localTask =>
    if task.updatedAt ≥ localTask.updatedAt then
      (mapSet acc.1 task.id task, acc.2)
    else
      (acc.1, acc.2 ++ [(task.id, localTask)])

/-- Result of TaskManager.mergeTasks: the returned merged array together
with the recorded network effect, the list of apiClient.updateTask(id,
localTask) calls fired while iterating. -/
structure MergeResult where
  merged : List Task
  updateCalls : List (String × Task)
deriving Repr, DecidableEq

/-- TaskManager.mergeTasks (src/js/store/TaskManager.js lines 229-261):
build the map from localTasks, fold the server tasks over it with the
recency rule, and return Array.from(taskMap.values()).  The embedding takes
no clock input because the source reads no clock during the merge: the only
Date constructions parse the updatedAt fields of the inputs. -/
def mergeTasks (localTasks serverTasks : List Task) : MergeResult :=
  let acc := serverTasks.foldl mergeStep (buildLocalMap localTasks, [])
  ⟨acc.1.map (fun p => p.2), acc.2⟩

/-- new Map(ts.map(t => [t.id, t])).get(k): with duplicate keys the
last entry wins. -/
def lastWithId : List Task → String → Option Task
  | [], _ => none
  | t :: rest, k =>
    match lastWithId rest k with
    | some u => some u
    | none => if t.id = k then some t else none

/-- clientTaskMap.has(k) for the map built from ts. -/
def hasId (ts : List Task) (k : String) : Bool :=
  ts.any (fun t => t.id = k)

/-- The three accumulators of the /sync route's merge pass. -/
structure SyncMergeResult where
  mergedTasks : List Task
  tasksToCreate : List Task
  tasksToUpdate : List Task
deriving Repr, DecidableEq

/-- One iteration of the for (const clientTask of clientTasks) loop of the
/sync route (src/server/routes/auth.js lines 434-454). -/
def syncStep (serverTasks : List Task) (acc : SyncMergeResult)
    (clientTask : Task) : SyncMergeResult :=
  match lastWithId serverTasks clientTask.id with
  | none =>
    { acc with tasksToCreate := acc.tasksToCreate ++ [clientTask] }
  | some serverTask =>
    if clientTask.updatedAt > serverTask.updatedAt then
      { acc with
        tasksToUpdate := acc.tasksToUpdate ++ [clientTask],
        mergedTasks := acc.mergedTasks ++ [clientTask] }
    else
      { acc with mergedTasks := acc.mergedTasks ++ [serverTask] }

/-- The merge pass of the /sync route (src/server/routes/auth.js lines
426-462): process the client tasks against the server task map, then append
the server tasks whose id the client does not have. -/
def serverSyncMerge (clientTasks serverTasks : List Task) : SyncMergeResult :=
  let afterClient := clientTasks.foldl (syncStep serverTasks) ⟨[], [], []⟩
  { afterClient with
    mergedTasks := serverTasks.foldl
      (fun m serverTask =>
        if hasId clientTasks serverTask.id then m else m ++ [serverTask])
      afterClient.mergedTasks }

/-- mergedTasks[index] = createdTask at the first index whose task has the
given id (mergedTasks.findIndex(t => t.id === task.id) followed by
assignment). -/
def replaceFirst : List Task → String → Task → List Task
  | [], _, _ => []
  | t :: rest, i, r => if t.id = i then r :: rest else t :: replaceFirst rest i r

/-- One iteration of the create-application loop of the /sync route: run
the INSERT ... ON CONFLICT (id) DO NOTHING RETURNING * for one task; when
it returns a row, that row replaces the mergedTasks entry with the same id
or is appended.  The database insert is abstracted as
ins : Task → Option Task, none modelling a conflict where no row comes
back. -/
def createStep (ins : Task → Option Task) (m : List Task) (task : Task) : List Task :=
  match ins task with
  | none => m
  | some createdTask =>
    if hasId m task.id then replaceFirst m task.id createdTask
    else m ++ [createdTask]

/-- The create-application loop of the /sync route (lines 464-515), folded
over tasksToCreate. -/
def applyCreates (ins : Task → Option Task)
    (mergedTasks tasksToCreate : List Task) : List Task :=
  tasksToCreate.foldl (createStep ins) mergedTasks

/-- The ids occurring in a task list, in order, with multiplicity. -/
def idsOf (ts : List Task) : List String :=
  ts.map (fun t => t.id)

/-- The conflict-resolution step of the client merge, read off the map
entry for one id: a first entry is installed as-is, and a later entry with
the same id replaces the current one exactly when its updatedAt is at least
the current one's. -/
def recencyStep (cur : Option Task) (t : Task) : Option Task :=
  match cur with
  | none => some t
  | some c => if t.updatedAt ≥ c.updatedAt then some t else some c

/-- Folding the recency rule over the server-task occurrences of one id. -/
def serverFold (init : Option Task) (ts : List Task) : Option Task :=
  ts.foldl recencyStep init

/-- The update calls fired by the server loop of TaskManager.mergeTasks
starting from the map m, written as structural recursion over the server
tasks. -/
def callsAfter : List (String × Task) → List Task → List (String × Task)
  | _, [] => []
  | m, t :: rest =>
    match mapGet m t.id with
    | none => callsAfter (mapSet m t.id t) rest
    | some localTask =>
      if t.updatedAt ≥ localTask.updatedAt then
        callsAfter (mapSet m t.id t) rest
      else
        (t.id, localTask) :: callsAfter m rest

/-- The fields accepted by TaskManager.createTask: any of them may be
absent from the taskData object. -/
structure TaskData where
  title : Option String
  description : Option String
  category : Option String
  priority : Option String
  status : Option String
  dueDate : Option Int
deriving Repr, DecidableEq

/-- JavaScript x || d on an optional string field: absent, null and the
empty string fall back to the default. -/
def orDefault (o : Option String) (d : String) : String :=
  match o with
  | none => d
  | some s => if s = "" then d else s

/-- JavaScript String.prototype.trim: strip leading and trailing
whitespace.  Written by structural recursion over the character list so
that concrete inputs evaluate. -/
def jsTrim (s : String) : String :=
  ⟨((s.data.dropWhile Char.isWhitespace).reverse.dropWhile Char.isWhitespace).reverse⟩

/-- The state TaskManager touches: its in-memory task array and the
persisted localStorage cell written through the StorageManager. -/
structure AppState where
  tasks : List Task
  stored : StoredCell Task
deriving Repr, DecidableEq

/-- The task object literal built at the top of TaskManager.createTask:
each field falls back through the JavaScript or-defaults, the id comes from
generateId (passed in here), and both timestamps read the clock (passed in
as now). -/
def mkNewTask (now : Int) (newId : String) (d : TaskData) : Task :=
  { id := newId
    title := orDefault d.title ""
    description := orDefault d.description ""
    category := orDefault d.category ""
    priority := orDefault d.priority "Medium"
    status := orDefault d.status "todo"
    dueDate := d.dueDate
    createdAt := now
    updatedAt := now }

/-- TaskManager.createTask (lines 40-76): build the task with defaults,
throw when the trimmed title is empty (before any mutation), otherwise
push it and save the collection.  The generated id and the clock readings
are passed in; the apiClient.createTask failure is caught by the source, so
it never affects the result.  The storage save is modelled as total. -/
def createTask (st : AppState) (now : Int) (newId : String) (d : TaskData) :
    Except String Task × AppState :=
  let task := mkNewTask now newId d
  if jsTrim task.title = "" then
    (.error "Task title is required", st)
  else
    let tasks2 := st.tasks ++ [task]
    (.ok task, { tasks := tasks2, stored := saveTasksLocalStorage now tasks2 })

/-- The updates object passed to TaskManager.updateTask: absent fields are
left as they were by the object spread. -/
structure TaskUpdates where
  title : Option String
  description : Option String
  category : Option String
  priority : Option String
  status : Option String
  dueDate : Option (Option Int)
deriving Repr, DecidableEq

/-- The object spread { ...task, ...updates, updatedAt: now } of
TaskManager.updateTask. -/
def applySpread (t : Task) (u : TaskUpdates) (now : Int) : Task :=
  { t with
    title := u.title.getD t.title
    description := u.description.getD t.description
    category := u.category.getD t.category
    priority := u.priority.getD t.priority
    status := u.status.getD t.status
    dueDate := u.dueDate.getD t.dueDate
    updatedAt := now }

/-- TaskManager.updateTask (lines 78-114): throw when no task has the id,
build the updated task, throw when its trimmed title is empty (before any
mutation), otherwise write it back in place and save.  As in createTask,
the server sync failure is caught by the source and the storage save is
modelled as total. -/
def updateTask (st : AppState) (now : Int) (taskId : String) (u : TaskUpdates) :
    Except String Task × AppState :=
  match st.tasks.findIdx? (fun t => t.id = taskId) with
  | none => (.error "Task not found", st)
  | some i =>
    let updatedTask := applySpread (st.tasks.getD i default) u now
    if jsTrim updatedTask.title = "" then
      (.error "Task title is required", st)
    else
      let tasks2 := st.tasks.set i updatedTask
      (.ok updatedTask, { tasks := tasks2, stored := saveTasksLocalStorage now tasks2 })

/-- TaskManager.loadTasks (lines 180-198): this.tasks = localTasks || [],
where localTasks is whatever the StorageManager returned — no per-entry
validation happens here. -/
def TaskManager.loadTasks (st : AppState) : AppState :=
  { st with tasks := StorageManager.loadTasks st.stored }

/-- Sample task: id a, updatedAt 2. -/
def taskA2 : Task :=
  { id := "a", title := "X", description := "", category := "",
    priority := "Medium", status := "todo", dueDate := none,
    createdAt := 0, updatedAt := 2 }

/-- Sample task: id a, updatedAt 1, distinct title. -/
def taskA1 : Task :=
  { id := "a", title := "Y", description := "", category := "",
    priority := "Medium", status := "todo", dueDate := none,
    createdAt := 0, updatedAt := 1 }

/-- Sample task with id b, present only locally in the scenarios below. -/
def taskB : Task :=
  { id := "b", title := "Z", description := "", category := "",
    priority := "Low", status := "done", dueDate := some 5,
    createdAt := 1, updatedAt := 3 }

/-- Sample task with an empty title, as a persisted entry can carry. -/
def taskEmptyTitle : Task :=
  { id := "x", title := "", description := "", category := "",
    priority := "Medium", status := "todo", dueDate := none,
    createdAt := 0, updatedAt := 0 }

/-- A persisted raw entry whose title field is absent. -/
def rawNoTitle : RawTask :=
  { id := some "a", title := none, description := some "d",
    category := none, priority := some "Medium", status := some "todo",
    dueDate := none, createdAt := some "2024-01-01",
    updatedAt := some "2024-01-02" }

/-- An app state whose persisted cell holds a task with an empty title. -/
def stateWithEmptyTitleStored : AppState :=
  { tasks := [], stored := StoredCell.tasksArr "1.0" 0 [taskEmptyTitle] }

/-- An app state with nothing held and nothing stored. -/
def emptyState : AppState :=
  { tasks := [], stored := StoredCell.empty }

/-- Task data with a real title and everything else defaulted. -/
def dGood : TaskData :=
  { title := some "T", description := none, category := none,
    priority := none, status := none, dueDate := none }

/-- Task data with no title at all. -/
def dNoTitle : TaskData :=
  { title := none, description := none, category := none,
    priority := none, status := none, dueDate := none }

/-- An updates object touching nothing. -/
def uNone : TaskUpdates :=
  { title := none, description := none, category := none,
    priority := none, status := none, dueDate := none }

example : (mergeTasks [] [taskA2, taskA1]).merged = [taskA2] := by decide
example : (mergeTasks [] [taskA2, taskA1]).updateCalls = [("a", taskA2)] := by decide
example : (mergeTasks [taskA2] [taskA1]).merged = [taskA2] := by decide
example : (mergeTasks [taskA1] [taskA2]).merged = [taskA2] := by decide
example : (mergeTasks [taskA1] [taskA2]).updateCalls = [] := by decide
example : (serverSyncMerge [taskB] []).mergedTasks = [] := by decide
example : (serverSyncMerge [taskB] []).tasksToCreate = [taskB] := by decide
example : (serverSyncMerge [taskA2] [taskA1]).mergedTasks = [taskA2] := by decide
example : (serverSyncMerge [taskA2] [taskA1]).tasksToUpdate = [taskA2] := by decide
example : (serverSyncMerge [taskA1] [taskA2]).mergedTasks = [taskA2] := by decide
example : (serverSyncMerge [] [taskA1]).mergedTasks = [taskA1] := by decide
example :
    applyCreates (fun u => some u) [] [taskB] = [taskB] := by decide

/-! ### Association-map lemmas -/

/-- The keys of a task map, in order. -/
def mapKeys (m : List (String × Task)) : List String :=
  m.map (fun p => p.1)

/-- Every map entry's value carries the entry's key as its id; the merge
only ever sets t.id to t, so its maps satisfy this. -/
def coherent (m : List (String × Task)) : Prop :=
  ∀ p ∈ m, p.2.id = p.1

lemma idsOf_cons (t : Task) (ts : List Task) : idsOf (t :: ts) = t.id :: idsOf ts := rfl

lemma mem_idsOf (ts : List Task) (i : String) : i ∈ idsOf ts ↔ ∃ t ∈ ts, t.id = i := by
  simp [idsOf]

lemma mapGet_mapSet (m : List (String × Task)) (k k2 : String) (v : Task) :
    mapGet (mapSet m k v) k2 = if k2 = k then some v else mapGet m k2 := by
  induction m with
  | nil =>
    simp only [mapSet, mapGet]
    by_cases h : k2 = k
    · simp [h]
    · have h1 : ¬ k = k2 := fun e => h e.symm
      simp [h, h1]
  | cons p rest ih =>
    by_cases hpk : p.1 = k
    · rw [mapSet, if_pos hpk]
      simp only [mapGet]
      by_cases h : k2 = k
      · simp [h]
      · have h1 : ¬ k = k2 := fun e => h e.symm
        have h2 : ¬ p.1 = k2 := fun e => h (e.symm.trans hpk)
        simp [h, h1, h2]
    · rw [mapSet, if_neg hpk]
      simp only [mapGet]
      by_cases hp2 : p.1 = k2
      · have h : ¬ k2 = k := fun e => hpk (hp2.trans e)
        simp [hp2, h]
      · simp [hp2, ih]

lemma mapKeys_cons (p : String × Task) (rest : List (String × Task)) :
    mapKeys (p :: rest) = p.1 :: mapKeys rest := rfl

lemma mem_mapKeys_cons (p : String × Task) (rest : List (String × Task)) (k : String)
    (hpk : ¬ p.1 = k) : k ∈ mapKeys (p :: rest) ↔ k ∈ mapKeys rest := by
  rw [mapKeys_cons, List.mem_cons]
  constructor
  · rintro (h | h)
    · exact absurd h.symm hpk
    · exact h
  · exact Or.inr

lemma mapKeys_mapSet (m : List (String × Task)) (k : String) (v : Task) :
    mapKeys (mapSet m k v) =
      if k ∈ mapKeys m then mapKeys m else mapKeys m ++ [k] := by
  induction m with
  | nil => simp [mapSet, mapKeys]
  | cons p rest ih =>
    by_cases hpk : p.1 = k
    · have hmem : k ∈ mapKeys (p :: rest) := by
        rw [mapKeys_cons, List.mem_cons]
        exact Or.inl hpk.symm
      rw [mapSet, if_pos hpk, if_pos hmem, mapKeys_cons, mapKeys_cons, hpk]
    · rw [mapSet, if_neg hpk]
      by_cases hk : k ∈ mapKeys rest
      · have hmem : k ∈ mapKeys (p :: rest) := (mem_mapKeys_cons p rest k hpk).mpr hk
        rw [if_pos hmem, mapKeys_cons, mapKeys_cons, ih, if_pos hk]
      · have hmem : k ∉ mapKeys (p :: rest) := fun h =>
          hk ((mem_mapKeys_cons p rest k hpk).mp h)
        rw [if_neg hmem, mapKeys_cons, mapKeys_cons, ih, if_neg hk, List.cons_append]

lemma nodup_mapKeys_mapSet (m : List (String × Task)) (k : String) (v : Task)
    (h : (mapKeys m).Nodup) : (mapKeys (mapSet m k v)).Nodup := by
  rw [mapKeys_mapSet]
  by_cases hk : k ∈ mapKeys m
  · simpa [hk] using h
  · rw [if_neg hk]
    rw [List.nodup_append]
    refine ⟨h, List.nodup_singleton k, ?_⟩
    intro a ha hak
    rw [List.mem_singleton] at hak
    exact hk (hak ▸ ha)

lemma coherent_mapSet (m : List (String × Task)) (v : Task)
    (h : coherent m) : coherent (mapSet m v.id v) := by
  induction m with
  | nil =>
    intro p hp
    rw [mapSet] at hp
    simp at hp
    simp [hp]
  | cons q rest ih =>
    intro p hp
    by_cases hq : q.1 = v.id
    · rw [mapSet, if_pos hq] at hp
      rcases List.mem_cons.mp hp with hp | hp
      · simp [hp]
      · exact h p (List.mem_cons_of_mem q hp)
    · rw [mapSet, if_neg hq] at hp
      rcases List.mem_cons.mp hp with hp | hp
      · exact hp ▸ h q (List.mem_cons_self q rest)
      · exact ih (fun r hr => h r (List.mem_cons_of_mem q hr)) p hp

lemma mem_mapSet (m : List (String × Task)) (k : String) (v : Task) (p : String × Task)
    (hp : p ∈ mapSet m k v) : p ∈ m ∨ p = (k, v) := by
  induction m with
  | nil =>
    rw [mapSet] at hp
    simp at hp
    exact Or.inr hp
  | cons q rest ih =>
    by_cases hq : q.1 = k
    · rw [mapSet, if_pos hq] at hp
      rcases List.mem_cons.mp hp with hp | hp
      · exact Or.inr hp
      · exact Or.inl (List.mem_cons_of_mem q hp)
    · rw [mapSet, if_neg hq] at hp
      rcases List.mem_cons.mp hp with hp | hp
      · exact Or.inl (hp ▸ List.mem_cons_self q rest)
      · rcases ih hp with hp | hp
        · exact Or.inl (List.mem_cons_of_mem q hp)
        · exact Or.inr hp

/-! ### lastWithId and buildLocalMap lemmas -/

lemma lastWithId_eq_none (L : List Task) (i : String) (h : i ∉ idsOf L) :
    lastWithId L i = none := by
  induction L with
  | nil => rfl
  | cons t rest ih =>
    rw [idsOf_cons] at h
    have hti : ¬ t.id = i := fun e => h (e ▸ List.mem_cons_self t.id (idsOf rest))
    have hrest : i ∉ idsOf rest := fun hr => h (List.mem_cons_of_mem _ hr)
    rw [lastWithId, ih hrest]
    simp [hti]

lemma lastWithId_mem (L : List Task) (i : String) (t : Task)
    (h : lastWithId L i = some t) : t ∈ L ∧ t.id = i := by
  induction L with
  | nil => simp [lastWithId] at h
  | cons u rest ih =>
    rw [lastWithId] at h
    cases hr : lastWithId rest i with
    | some w =>
      rw [hr] at h
      simp at h
      subst h
      have := ih hr
      exact ⟨List.mem_cons_of_mem u this.1, this.2⟩
    | none =>
      rw [hr] at h
      by_cases hu : u.id = i
      · rw [if_pos hu] at h
        simp at h
        subst h
        exact ⟨List.mem_cons_self u rest, hu⟩
      · rw [if_neg hu] at h
        simp at h

lemma lastWithId_isSome (L : List Task) (i : String) (h : i ∈ idsOf L) :
    ∃ t, lastWithId L i = some t := by
  induction L with
  | nil => simp [idsOf] at h
  | cons u rest ih =>
    rw [lastWithId]
    cases hr : lastWithId rest i with
    | some w => exact ⟨w, rfl⟩
    | none =>
      by_cases hu : u.id = i
      · exact ⟨u, by simp [hu]⟩
      · rw [idsOf_cons, List.mem_cons] at h
        rcases h with h | h
        · exact absurd h.symm hu
        · rcases ih h with ⟨t, ht⟩
          rw [hr] at ht
          cases ht

lemma lastWithId_nodup (L : List Task) (i : String) (t : Task)
    (hn : (idsOf L).Nodup) (ht : t ∈ L) (hti : t.id = i) :
    lastWithId L i = some t := by
  induction L with
  | nil => simp at ht
  | cons u rest ih =>
    rw [idsOf_cons, List.nodup_cons] at hn
    rcases List.mem_cons.mp ht with ht | ht
    · subst ht
      have hnone : lastWithId rest i = none :=
        lastWithId_eq_none rest i (hti ▸ hn.1)
      rw [lastWithId, hnone]
      simp [hti]
    · have := ih hn.2 ht
      rw [lastWithId, this]

lemma foldl_mapSet_get (L : List Task) (m0 : List (String × Task)) (i : String) :
    mapGet (L.foldl (fun m t => mapSet m t.id t) m0) i =
      match lastWithId L i with
      | some u => some u
      | none => mapGet m0 i := by
  induction L generalizing m0 with
  | nil => simp [lastWithId]
  | cons t rest ih =>
    rw [List.foldl_cons, ih, lastWithId]
    cases hr : lastWithId rest i with
    | some u => simp
    | none =>
      by_cases ht : t.id = i
      · simp [ht, mapGet_mapSet]
      · have h2 : ¬ i = t.id := fun e => ht e.symm
        simp [ht, mapGet_mapSet, h2]

lemma mapGet_buildLocalMap (L : List Task) (i : String) :
    mapGet (buildLocalMap L) i = lastWithId L i := by
  rw [buildLocalMap, foldl_mapSet_get]
  cases lastWithId L i <;> simp [mapGet]

lemma nodup_buildLocalMap (L : List Task) : (mapKeys (buildLocalMap L)).Nodup := by
  rw [buildLocalMap]
  have h : ∀ (m0 : List (String × Task)), (mapKeys m0).Nodup →
      (mapKeys (L.foldl (fun m t => mapSet m t.id t) m0)).Nodup := by
    induction L with
    | nil => intro m0 h; simpa using h
    | cons t rest ih =>
      intro m0 h
      exact ih (mapSet m0 t.id t) (nodup_mapKeys_mapSet m0 t.id t h)
  exact h [] (by simp [mapKeys])

lemma coherent_buildLocalMap (L : List Task) : coherent (buildLocalMap L) := by
  rw [buildLocalMap]
  have h : ∀ (m0 : List (String × Task)), coherent m0 →
      coherent (L.foldl (fun m t => mapSet m t.id t) m0) := by
    induction L with
    | nil => intro m0 h; simpa using h
    | cons t rest ih =>
      intro m0 h
      exact ih (mapSet m0 t.id t) (coherent_mapSet m0 t h)
  exact h [] (by intro p hp; simp at hp)

lemma foldl_mapSet_mem (L : List Task) (m0 : List (String × Task)) (p : String × Task)
    (hp : p ∈ L.foldl (fun m t => mapSet m t.id t) m0) : p ∈ m0 ∨ p.2 ∈ L := by
  induction L generalizing m0 with
  | nil => exact Or.inl hp
  | cons t rest ih =>
    rw [List.foldl_cons] at hp
    rcases ih (mapSet m0 t.id t) hp with h | h
    · rcases mem_mapSet m0 t.id t p h with h | h
      · exact Or.inl h
      · exact Or.inr (by simp [h])
    · exact Or.inr (List.mem_cons_of_mem t h)

lemma mem_buildLocalMap (L : List Task) (p : String × Task)
    (hp : p ∈ buildLocalMap L) : p.2 ∈ L := by
  rw [buildLocalMap] at hp
  rcases foldl_mapSet_mem L [] p hp with h | h
  · simp at h
  · exact h

/-! ### Client merge-loop characterization -/

lemma mergeLoop_fst_get (S : List Task) :
    ∀ (m c : List (String × Task)) (i : String),
    mapGet ((S.foldl mergeStep (m, c)).1) i =
      serverFold (mapGet m i) (S.filter (fun t => t.id = i)) := by
  induction S with
  | nil => intro m c i; simp [serverFold]
  | cons t rest ih =>
    intro m c i
    rw [List.foldl_cons]
    by_cases hti : t.id = i
    · have hfilter : (t :: rest).filter (fun u => u.id = i) =
          t :: rest.filter (fun u => u.id = i) := by simp [hti]
      rw [hfilter]
      have hfold : serverFold (mapGet m i) (t :: rest.filter (fun u => u.id = i)) =
          serverFold (recencyStep (mapGet m i) t) (rest.filter (fun u => u.id = i)) := rfl
      rw [hfold]
      cases hm : mapGet m t.id with
      | none =>
        have hstep : mergeStep (m, c) t = (mapSet m t.id t, c) := by
          simp [mergeStep, hm]
        rw [hstep, ih]
        have h1 : mapGet (mapSet m t.id t) i = some t := by
          rw [mapGet_mapSet, if_pos hti.symm]
        have h2 : recencyStep (mapGet m i) t = some t := by
          rw [← hti, hm]; rfl
        rw [h1, h2]
      | some lt =>
        by_cases hge : t.updatedAt ≥ lt.updatedAt
        · have hstep : mergeStep (m, c) t = (mapSet m t.id t, c) := by
            simp [mergeStep, hm, hge]
          rw [hstep, ih]
          have h1 : mapGet (mapSet m t.id t) i = some t := by
            rw [mapGet_mapSet, if_pos hti.symm]
          have h2 : recencyStep (mapGet m i) t = some t := by
            rw [← hti, hm, recencyStep]
            simp [hge]
          rw [h1, h2]
        · have hstep : mergeStep (m, c) t = (m, c ++ [(t.id, lt)]) := by
            simp [mergeStep, hm, hge]
          rw [hstep, ih]
          have h2 : recencyStep (mapGet m i) t = mapGet m i := by
            rw [← hti, hm, recencyStep]
            simp [hge]
          rw [h2]
    · have hfilter : (t :: rest).filter (fun u => u.id = i) =
          rest.filter (fun u => u.id = i) := by simp [hti]
      rw [hfilter]
      have hget : ∀ v : Task, mapGet (mapSet m t.id v) i = mapGet m i := by
        intro v
        rw [mapGet_mapSet, if_neg (fun e => hti e.symm)]
      cases hm : mapGet m t.id with
      | none =>
        have hstep : mergeStep (m, c) t = (mapSet m t.id t, c) := by
          simp [mergeStep, hm]
        rw [hstep, ih, hget]
      | some lt =>
        by_cases hge : t.updatedAt ≥ lt.updatedAt
        · have hstep : mergeStep (m, c) t = (mapSet m t.id t, c) := by
            simp [mergeStep, hm, hge]
          rw [hstep, ih, hget]
        · have hstep : mergeStep (m, c) t = (m, c ++ [(t.id, lt)]) := by
            simp [mergeStep, hm, hge]
          rw [hstep, ih]

lemma mergeLoop_snd (S : List Task) :
    ∀ (m c : List (String × Task)),
    (S.foldl mergeStep (m, c)).2 = c ++ callsAfter m S := by
  induction S with
  | nil => intro m c; simp [callsAfter]
  | cons t rest ih =>
    intro m c
    rw [List.foldl_cons]
    cases hm : mapGet m t.id with
    | none =>
      have hstep : mergeStep (m, c) t = (mapSet m t.id t, c) := by
        simp [mergeStep, hm]
      rw [hstep, ih, callsAfter, hm]
    | some lt =>
      by_cases hge : t.updatedAt ≥ lt.updatedAt
      · have hstep : mergeStep (m, c) t = (mapSet m t.id t, c) := by
          simp [mergeStep, hm, hge]
        rw [hstep, ih, callsAfter, hm]
        simp [hge]
      · have hstep : mergeStep (m, c) t = (m, c ++ [(t.id, lt)]) := by
          simp [mergeStep, hm, hge]
        rw [hstep, ih, callsAfter, hm]
        simp [hge]

lemma mergeLoop_fst_nodup (S : List Task) :
    ∀ (m c : List (String × Task)), (mapKeys m).Nodup →
    (mapKeys ((S.foldl mergeStep (m, c)).1)).Nodup := by
  induction S with
  | nil => intro m c h; simpa using h
  | cons t rest ih =>
    intro m c h
    rw [List.foldl_cons]
    cases hm : mapGet m t.id with
    | none =>
      have hstep : mergeStep (m, c) t = (mapSet m t.id t, c) := by
        simp [mergeStep, hm]
      rw [hstep]
      exact ih _ _ (nodup_mapKeys_mapSet m t.id t h)
    | some lt =>
      by_cases hge : t.updatedAt ≥ lt.updatedAt
      · have hstep : mergeStep (m, c) t = (mapSet m t.id t, c) := by
          simp [mergeStep, hm, hge]
        rw [hstep]
        exact ih _ _ (nodup_mapKeys_mapSet m t.id t h)
      · have hstep : mergeStep (m, c) t = (m, c ++ [(t.id, lt)]) := by
          simp [mergeStep, hm, hge]
        rw [hstep]
        exact ih _ _ h

lemma mergeLoop_fst_coherent (S : List Task) :
    ∀ (m c : List (String × Task)), coherent m →
    coherent ((S.foldl mergeStep (m, c)).1) := by
  induction S with
  | nil => intro m c h; simpa using h
  | cons t rest ih =>
    intro m c h
    rw [List.foldl_cons]
    cases hm : mapGet m t.id with
    | none =>
      have hstep : mergeStep (m, c) t = (mapSet m t.id t, c) := by
        simp [mergeStep, hm]
      rw [hstep]
      exact ih _ _ (coherent_mapSet m t h)
    | some lt =>
      by_cases hge : t.updatedAt ≥ lt.updatedAt
      · have hstep : mergeStep (m, c) t = (mapSet m t.id t, c) := by
          simp [mergeStep, hm, hge]
        rw [hstep]
        exact ih _ _ (coherent_mapSet m t h)
      · have hstep : mergeStep (m, c) t = (m, c ++ [(t.id, lt)]) := by
          simp [mergeStep, hm, hge]
        rw [hstep]
        exact ih _ _ h

lemma mergeLoop_fst_mem (S : List Task) :
    ∀ (m c : List (String × Task)) (p : String × Task),
    p ∈ (S.foldl mergeStep (m, c)).1 → p ∈ m ∨ p.2 ∈ S := by
  induction S with
  | nil => intro m c p hp; exact Or.inl hp
  | cons t rest ih =>
    intro m c p hp
    rw [List.foldl_cons] at hp
    cases hm : mapGet m t.id with
    | none =>
      rw [show mergeStep (m, c) t = (mapSet m t.id t, c) by simp [mergeStep, hm]] at hp
      rcases ih _ _ p hp with h | h
      · rcases mem_mapSet m t.id t p h with h | h
        · exact Or.inl h
        · exact Or.inr (by simp [h])
      · exact Or.inr (List.mem_cons_of_mem t h)
    | some lt =>
      by_cases hge : t.updatedAt ≥ lt.updatedAt
      · rw [show mergeStep (m, c) t = (mapSet m t.id t, c) by simp [mergeStep, hm, hge]] at hp
        rcases ih _ _ p hp with h | h
        · rcases mem_mapSet m t.id t p h with h | h
          · exact Or.inl h
          · exact Or.inr (by simp [h])
        · exact Or.inr (List.mem_cons_of_mem t h)
      · rw [show mergeStep (m, c) t = (m, c ++ [(t.id, lt)]) by simp [mergeStep, hm, hge]] at hp
        rcases ih _ _ p hp with h | h
        · exact Or.inl h
        · exact Or.inr (List.mem_cons_of_mem t h)

/-! ### mergeTasks-level lemmas -/

lemma mergeTasks_merged_def (L S : List Task) :
    (mergeTasks L S).merged =
      (S.foldl mergeStep (buildLocalMap L, [])).1.map (fun p => p.2) := rfl

lemma mergeTasks_calls_def (L S : List Task) :
    (mergeTasks L S).updateCalls = callsAfter (buildLocalMap L) S := by
  have h : (mergeTasks L S).updateCalls =
      (S.foldl mergeStep (buildLocalMap L, [])).2 := rfl
  rw [h, mergeLoop_snd]
  simp

lemma find_values (m : List (String × Task)) (i : String) (hc : coherent m) :
    (m.map (fun p => p.2)).find? (fun t => t.id = i) = mapGet m i := by
  induction m with
  | nil => rfl
  | cons p rest ih =>
    have hpid : p.2.id = p.1 := hc p (List.mem_cons_self p rest)
    rw [List.map_cons]
    by_cases h : p.2.id = i
    · rw [List.find?_cons_of_pos _ (by simp [h]), mapGet, if_pos (hpid ▸ h)]
    · rw [List.find?_cons_of_neg _ (by simp [h]), mapGet,
        if_neg (fun e => h (hpid.symm ▸ e)), ih (fun r hr => hc r (List.mem_cons_of_mem p hr))]

lemma idsOf_values (m : List (String × Task)) (hc : coherent m) :
    idsOf (m.map (fun p => p.2)) = mapKeys m := by
  induction m with
  | nil => rfl
  | cons p rest ih =>
    have hpid : p.2.id = p.1 := hc p (List.mem_cons_self p rest)
    rw [List.map_cons, idsOf_cons, mapKeys_cons, hpid,
      ih (fun r hr => hc r (List.mem_cons_of_mem p hr))]

lemma mergeTasks_find (L S : List Task) (i : String) :
    (mergeTasks L S).merged.find? (fun t => t.id = i) =
      serverFold (lastWithId L i) (S.filter (fun t => t.id = i)) := by
  rw [mergeTasks_merged_def,
    find_values _ i (mergeLoop_fst_coherent S _ [] (coherent_buildLocalMap L)),
    mergeLoop_fst_get, mapGet_buildLocalMap]

lemma mergeTasks_nodup_ids (L S : List Task) :
    (idsOf (mergeTasks L S).merged).Nodup := by
  rw [mergeTasks_merged_def,
    idsOf_values _ (mergeLoop_fst_coherent S _ [] (coherent_buildLocalMap L))]
  exact mergeLoop_fst_nodup S _ [] (nodup_buildLocalMap L)

lemma mergeTasks_mem (L S : List Task) (t : Task)
    (h : t ∈ (mergeTasks L S).merged) : t ∈ L ∨ t ∈ S := by
  rw [mergeTasks_merged_def] at h
  obtain ⟨p, hp, hpt⟩ := List.mem_map.mp h
  rcases mergeLoop_fst_mem S _ [] p hp with h2 | h2
  · exact Or.inl (hpt ▸ mem_buildLocalMap L p h2)
  · exact Or.inr (hpt ▸ h2)

lemma recencyStep_ne_none (cur : Option Task) (t : Task) :
    recencyStep cur t ≠ none := by
  cases cur with
  | none => simp [recencyStep]
  | some c =>
    rw [recencyStep]
    by_cases h : t.updatedAt ≥ c.updatedAt <;> simp [h]

lemma serverFold_eq_none (ts : List Task) :
    ∀ init : Option Task, serverFold init ts = none ↔ init = none ∧ ts = [] := by
  induction ts with
  | nil => intro init; simp [serverFold]
  | cons t rest ih =>
    intro init
    constructor
    · intro h
      have h2 : serverFold (recencyStep init t) rest = none := h
      rcases (ih _).mp h2 with ⟨hr, _⟩
      exact absurd hr (recencyStep_ne_none init t)
    · rintro ⟨_, h⟩
      cases h

lemma callsAfter_key (S : List Task) :
    ∀ (m : List (String × Task)) (i : String) (x : Task),
    (i, x) ∈ callsAfter m S → i ∈ idsOf S := by
  induction S with
  | nil => intro m i x h; simp [callsAfter] at h
  | cons t rest ih =>
    intro m i x h
    rw [idsOf_cons]
    cases hm : mapGet m t.id with
    | none =>
      simp only [callsAfter, hm] at h
      exact List.mem_cons_of_mem _ (ih _ i x h)
    | some lt =>
      simp only [callsAfter, hm] at h
      by_cases hge : t.updatedAt ≥ lt.updatedAt
      · rw [if_pos hge] at h
        exact List.mem_cons_of_mem _ (ih _ i x h)
      · rw [if_neg hge] at h
        rcases List.mem_cons.mp h with h | h
        · cases h
          exact List.mem_cons_self _ _
        · exact List.mem_cons_of_mem _ (ih _ i x h)

lemma callsAfter_filterMap (S : List Task) :
    ∀ (m : List (String × Task)), (idsOf S).Nodup →
    callsAfter m S = S.filterMap (fun t =>
      match mapGet m t.id with
      | none => none
      | some lt => if t.updatedAt ≥ lt.updatedAt then none else some (t.id, lt)) := by
  induction S with
  | nil => intro m _; rfl
  | cons t rest ih =>
    intro m hn
    rw [idsOf_cons, List.nodup_cons] at hn
    have hcong : ∀ v : Task, rest.filterMap (fun u =>
        match mapGet (mapSet m t.id v) u.id with
        | none => none
        | some lt => if u.updatedAt ≥ lt.updatedAt then none else some (u.id, lt)) =
      rest.filterMap (fun u =>
        match mapGet m u.id with
        | none => none
        | some lt => if u.updatedAt ≥ lt.updatedAt then none else some (u.id, lt)) := by
      intro v
      refine List.filterMap_congr ?_
      intro u hu
      have hne : ¬ u.id = t.id := by
        intro e
        exact hn.1 (e ▸ (mem_idsOf rest u.id).mpr ⟨u, hu, rfl⟩)
      rw [mapGet_mapSet, if_neg hne]
    cases hm : mapGet m t.id with
    | none =>
      simp only [callsAfter, List.filterMap_cons, hm]
      rw [ih _ hn.2, hcong]
    | some lt =>
      by_cases hge : t.updatedAt ≥ lt.updatedAt
      · simp only [callsAfter, List.filterMap_cons, hm, if_pos hge]
        rw [ih _ hn.2, hcong]
      · simp only [callsAfter, List.filterMap_cons, hm, if_neg hge]
        rw [ih _ hn.2]

lemma mergeTasks_mem_ids (L S : List Task) (i : String) :
    i ∈ idsOf (mergeTasks L S).merged ↔ (i ∈ idsOf L ∨ i ∈ idsOf S) := by
  constructor
  · intro h
    obtain ⟨t, ht, hti⟩ := (mem_idsOf _ i).mp h
    rcases mergeTasks_mem L S t ht with h2 | h2
    · exact Or.inl ((mem_idsOf _ i).mpr ⟨t, h2, hti⟩)
    · exact Or.inr ((mem_idsOf _ i).mpr ⟨t, h2, hti⟩)
  · intro h
    have hne : serverFold (lastWithId L i) (S.filter (fun t => t.id = i)) ≠ none := by
      intro hcontra
      rcases (serverFold_eq_none _ _).mp hcontra with ⟨h1, h2⟩
      rcases h with h | h
      · obtain ⟨t, ht⟩ := lastWithId_isSome L i h
        rw [ht] at h1
        cases h1
      · obtain ⟨s, hs, hsi⟩ := (mem_idsOf _ i).mp h
        have : s ∈ S.filter (fun t => t.id = i) := List.mem_filter.mpr ⟨hs, by simp [hsi]⟩
        rw [h2] at this
        simp at this
    cases hf : (mergeTasks L S).merged.find? (fun t => t.id = i) with
    | none =>
      rw [mergeTasks_find] at hf
      exact absurd hf hne
    | some u =>
      have hmem := List.mem_of_find?_eq_some hf
      have hpred := List.find?_some hf
      simp at hpred
      exact (mem_idsOf _ i).mpr ⟨u, hmem, hpred⟩

/-! ### Server sync-merge characterization -/

/-- What one client task contributes to mergedTasks in the sync merge
pass: nothing when its id is server-absent, otherwise the recency
winner. -/
def syncMergedOf (serverTasks : List Task) (ct : Task) : Option Task :=
  match lastWithId serverTasks ct.id with
  | none => none
  | some st => some (if ct.updatedAt > st.updatedAt then ct else st)

/-- Whether one client task lands in tasksToCreate. -/
def syncCreates (serverTasks : List Task) (ct : Task) : Bool :=
  (lastWithId serverTasks ct.id).isNone

/-- Whether one client task lands in tasksToUpdate. -/
def syncUpdates (serverTasks : List Task) (ct : Task) : Bool :=
  match lastWithId serverTasks ct.id with
  | none => false
  | some st => decide (ct.updatedAt > st.updatedAt)

lemma clientLoop_spec (S : List Task) (L : List Task) :
    ∀ acc : SyncMergeResult,
    L.foldl (syncStep S) acc =
      ⟨acc.mergedTasks ++ L.filterMap (syncMergedOf S),
       acc.tasksToCreate ++ L.filter (syncCreates S),
       acc.tasksToUpdate ++ L.filter (syncUpdates S)⟩ := by
  induction L with
  | nil => intro acc; simp
  | cons ct rest ih =>
    intro acc
    rw [List.foldl_cons, ih]
    cases hs : lastWithId S ct.id with
    | none =>
      simp [syncStep, hs, syncMergedOf, syncCreates, syncUpdates,
        List.filter_cons, List.filterMap_cons]
    | some st =>
      by_cases hgt : ct.updatedAt > st.updatedAt
      · simp [syncStep, hs, hgt, syncMergedOf, syncCreates, syncUpdates,
          List.filter_cons, List.filterMap_cons]
      · simp [syncStep, hs, hgt, syncMergedOf, syncCreates, syncUpdates,
          List.filter_cons, List.filterMap_cons]

lemma serverOnly_fold (L S : List Task) :
    ∀ m0 : List Task,
    S.foldl (fun m st => if hasId L st.id then m else m ++ [st]) m0 =
      m0 ++ S.filter (fun st => !(hasId L st.id)) := by
  induction S with
  | nil => intro m0; simp
  | cons st rest ih =>
    intro m0
    rw [List.foldl_cons]
    by_cases h : hasId L st.id
    · rw [if_pos h, ih]
      simp [List.filter_cons, h]
    · rw [if_neg h, ih]
      have hb : hasId L st.id = false := by
        cases hv : hasId L st.id
        · rfl
        · exact absurd hv h
      simp [List.filter_cons, hb]

lemma serverSyncMerge_spec (L S : List Task) :
    serverSyncMerge L S =
      ⟨L.filterMap (syncMergedOf S) ++ S.filter (fun st => !(hasId L st.id)),
       L.filter (syncCreates S), L.filter (syncUpdates S)⟩ := by
  rw [serverSyncMerge]
  rw [clientLoop_spec, serverOnly_fold]
  simp

/-! ### Nodup-ids helper lemmas -/

lemma mem_ids_of_mem (ts : List Task) (t : Task) (h : t ∈ ts) : t.id ∈ idsOf ts :=
  (mem_idsOf ts t.id).mpr ⟨t, h, rfl⟩

lemma idsOf_append (a b : List Task) : idsOf (a ++ b) = idsOf a ++ idsOf b := by
  simp [idsOf]

lemma nodup_ids_unique (L : List Task) (hn : (idsOf L).Nodup) :
    ∀ a ∈ L, ∀ b ∈ L, a.id = b.id → a = b := by
  induction L with
  | nil => intro a ha; simp at ha
  | cons t rest ih =>
    rw [idsOf_cons, List.nodup_cons] at hn
    intro a ha b hb hab
    rcases List.mem_cons.mp ha with ha2 | ha2
    · rcases List.mem_cons.mp hb with hb2 | hb2
      · rw [ha2, hb2]
      · have hib : b.id = t.id := by rw [← hab, ha2]
        exact absurd ((mem_idsOf rest t.id).mpr ⟨b, hb2, hib⟩) hn.1
    · rcases List.mem_cons.mp hb with hb2 | hb2
      · have hia : a.id = t.id := by rw [hab, hb2]
        exact absurd ((mem_idsOf rest t.id).mpr ⟨a, ha2, hia⟩) hn.1
      · exact ih hn.2 a ha2 b hb2 hab

lemma filter_id_eq_nil (ts : List Task) (i : String) (h : i ∉ idsOf ts) :
    ts.filter (fun t => t.id = i) = [] := by
  induction ts with
  | nil => rfl
  | cons t rest ih =>
    rw [idsOf_cons] at h
    have hti : ¬ t.id = i := fun e => h (e ▸ List.mem_cons_self t.id (idsOf rest))
    have hrest : i ∉ idsOf rest := fun hr => h (List.mem_cons_of_mem _ hr)
    simp [List.filter_cons, hti, ih hrest]

lemma filter_eq_single (S : List Task) (i : String) (s : Task)
    (hn : (idsOf S).Nodup) (hs : s ∈ S) (hsi : s.id = i) :
    S.filter (fun t => t.id = i) = [s] := by
  induction S with
  | nil => simp at hs
  | cons t rest ih =>
    rw [idsOf_cons, List.nodup_cons] at hn
    rcases List.mem_cons.mp hs with hs | hs
    · subst hs
      have hrest : rest.filter (fun u => u.id = i) = [] :=
        filter_id_eq_nil rest i (hsi ▸ hn.1)
      simp [List.filter_cons, hsi, hrest]
    · have hti : ¬ t.id = i := by
        intro e
        exact hn.1 (e ▸ (mem_idsOf rest i).mpr ⟨s, hs, hsi⟩)
      simp [List.filter_cons, hti, ih hn.2 hs]

/-! ### applyCreates lemmas -/

lemma applyCreates_cons (ins : Task → Option Task) (m : List Task) (c : Task)
    (cs : List Task) :
    applyCreates ins m (c :: cs) = applyCreates ins (createStep ins m c) cs := rfl

lemma idsOf_replaceFirst (m : List Task) (i : String) (r : Task) (hr : r.id = i) :
    idsOf (replaceFirst m i r) = idsOf m := by
  induction m with
  | nil => rfl
  | cons t rest ih =>
    by_cases h : t.id = i
    · rw [replaceFirst, if_pos h, idsOf_cons, idsOf_cons, hr, h]
    · rw [replaceFirst, if_neg h, idsOf_cons, idsOf_cons, ih]

lemma mem_replaceFirst_of_ne (m : List Task) (i : String) (r x : Task)
    (hx : x ∈ m) (hne : ¬ x.id = i) : x ∈ replaceFirst m i r := by
  induction m with
  | nil => simp at hx
  | cons t rest ih =>
    by_cases h : t.id = i
    · rw [replaceFirst, if_pos h]
      rcases List.mem_cons.mp hx with hx | hx
      · exact absurd (hx ▸ h) hne
      · exact List.mem_cons_of_mem r hx
    · rw [replaceFirst, if_neg h]
      rcases List.mem_cons.mp hx with hx | hx
      · rw [hx]
        exact List.mem_cons_self t (replaceFirst rest i r)
      · exact List.mem_cons_of_mem t (ih hx)

lemma hasId_iff (ts : List Task) (i : String) : hasId ts i = true ↔ i ∈ idsOf ts := by
  simp [hasId, List.any_eq_true, mem_idsOf]

lemma hasId_eq_false (ts : List Task) (i : String) (h : i ∉ idsOf ts) :
    hasId ts i = false := by
  cases hv : hasId ts i
  · rfl
  · exact absurd ((hasId_iff ts i).mp hv) h

lemma applyCreates_preserve (ins : Task → Option Task)
    (_hid : ∀ u r2, ins u = some r2 → r2.id = u.id) :
    ∀ (cs m : List Task) (row : Task), row ∈ m → row.id ∉ idsOf cs →
    row ∈ applyCreates ins m cs := by
  intro cs
  induction cs with
  | nil => intro m row hrow _; exact hrow
  | cons c rest ih =>
    intro m row hrow hni
    rw [idsOf_cons] at hni
    have h1 : ¬ row.id = c.id := fun e => hni (e ▸ List.mem_cons_self c.id (idsOf rest))
    have h2 : row.id ∉ idsOf rest := fun hr => hni (List.mem_cons_of_mem _ hr)
    rw [applyCreates_cons]
    cases hc : ins c with
    | none =>
      rw [show createStep ins m c = m by simp [createStep, hc]]
      exact ih m row hrow h2
    | some r2 =>
      by_cases hb : hasId m c.id = true
      · rw [show createStep ins m c = replaceFirst m c.id r2 by simp [createStep, hc, hb]]
        exact ih _ row (mem_replaceFirst_of_ne m c.id r2 row hrow h1) h2
      · rw [show createStep ins m c = m ++ [r2] by simp [createStep, hc, hb]]
        exact ih _ row (List.mem_append_left _ hrow) h2

lemma applyCreates_mem (ins : Task → Option Task)
    (hid : ∀ u r2, ins u = some r2 → r2.id = u.id) :
    ∀ (cs m : List Task) (t row : Task), (idsOf cs).Nodup → t ∈ cs →
    ins t = some row → t.id ∉ idsOf m → row ∈ applyCreates ins m cs := by
  intro cs
  induction cs with
  | nil => intro m t row _ htc; simp at htc
  | cons c rest ih =>
    intro m t row hn htc hins hnm
    rw [idsOf_cons, List.nodup_cons] at hn
    rw [applyCreates_cons]
    rcases List.mem_cons.mp htc with htc | htc
    · subst htc
      have hb : hasId m t.id = false := hasId_eq_false m t.id hnm
      rw [show createStep ins m t = m ++ [row] by simp [createStep, hins, hb]]
      have hrowid : row.id = t.id := hid t row hins
      exact applyCreates_preserve ins hid rest (m ++ [row]) row
        (List.mem_append_right m (List.mem_cons_self row []))
        (hrowid ▸ hn.1)
    · have hct : ¬ c.id = t.id := by
        intro e
        exact hn.1 (e ▸ mem_ids_of_mem rest t htc)
      cases hc : ins c with
      | none =>
        rw [show createStep ins m c = m by simp [createStep, hc]]
        exact ih m t row hn.2 htc hins hnm
      | some r2 =>
        have hr2 : r2.id = c.id := hid c r2 hc
        by_cases hb : hasId m c.id = true
        · rw [show createStep ins m c = replaceFirst m c.id r2 by
            simp [createStep, hc, hb]]
          refine ih _ t row hn.2 htc hins ?_
          rw [idsOf_replaceFirst m c.id r2 hr2]
          exact hnm
        · rw [show createStep ins m c = m ++ [r2] by simp [createStep, hc, hb]]
          refine ih _ t row hn.2 htc hins ?_
          rw [idsOf_append]
          intro hmem
          rcases List.mem_append.mp hmem with h | h
          · exact hnm h
          · rw [idsOf_cons] at h
            rcases List.mem_cons.mp h with h | h
            · exact hct (hr2 ▸ h.symm)
            · simp [idsOf] at h

lemma serverSync_merged_eq (L S : List Task) :
    (serverSyncMerge L S).mergedTasks =
      L.filterMap (syncMergedOf S) ++ S.filter (fun st => !(hasId L st.id)) := by
  simp [serverSyncMerge_spec]

lemma serverSync_toCreate_eq (L S : List Task) :
    (serverSyncMerge L S).tasksToCreate = L.filter (syncCreates S) := by
  simp [serverSyncMerge_spec]

lemma serverSync_toUpdate_eq (L S : List Task) :
    (serverSyncMerge L S).tasksToUpdate = L.filter (syncUpdates S) := by
  simp [serverSyncMerge_spec]

lemma serverSync_merged_ids (L S : List Task) (i : String) :
    i ∈ idsOf (serverSyncMerge L S).mergedTasks ↔ i ∈ idsOf S := by
  rw [serverSync_merged_eq, idsOf_append]
  constructor
  · intro h
    rcases List.mem_append.mp h with h | h
    · obtain ⟨x, hx, hxi⟩ := (mem_idsOf _ i).mp h
      obtain ⟨ct, hct, hsm⟩ := List.mem_filterMap.mp hx
      cases hl : lastWithId S ct.id with
      | none => simp [syncMergedOf, hl] at hsm
      | some st =>
        simp only [syncMergedOf, hl, Option.some.injEq] at hsm
        obtain ⟨hstS, hstid⟩ := lastWithId_mem S ct.id st hl
        have hxid : x.id = ct.id := by
          by_cases hgt : ct.updatedAt > st.updatedAt
          · rw [← hsm, if_pos hgt]
          · rw [← hsm, if_neg hgt]
            exact hstid
        exact hxi ▸ hxid ▸ (hstid ▸ mem_ids_of_mem S st hstS)
    · obtain ⟨x, hx, hxi⟩ := (mem_idsOf _ i).mp h
      exact (mem_idsOf S i).mpr ⟨x, (List.mem_filter.mp hx).1, hxi⟩
  · intro h
    by_cases hL : i ∈ idsOf L
    · obtain ⟨ct, hct, hcti⟩ := (mem_idsOf L i).mp hL
      obtain ⟨st, hst⟩ := lastWithId_isSome S ct.id (hcti ▸ h)
      refine List.mem_append.mpr (Or.inl ((mem_idsOf _ i).mpr
        ⟨if ct.updatedAt > st.updatedAt then ct else st, ?_, ?_⟩))
      · exact List.mem_filterMap.mpr ⟨ct, hct, by simp [syncMergedOf, hst]⟩
      · obtain ⟨hstS, hstid⟩ := lastWithId_mem S ct.id st hst
        by_cases hgt : ct.updatedAt > st.updatedAt
        · simp [hgt, hcti]
        · simp [hgt, hstid, hcti]
    · obtain ⟨s, hs, hsi⟩ := (mem_idsOf S i).mp h
      refine List.mem_append.mpr (Or.inr ((mem_idsOf _ i).mpr ⟨s, ?_, hsi⟩))
      refine List.mem_filter.mpr ⟨hs, ?_⟩
      rw [hsi, hasId_eq_false L i hL]
      rfl

lemma serverSync_toCreate_ids (L S : List Task) (i : String) :
    i ∈ idsOf (serverSyncMerge L S).tasksToCreate ↔
      (i ∈ idsOf L ∧ i ∉ idsOf S) := by
  rw [serverSync_toCreate_eq]
  constructor
  · intro h
    obtain ⟨x, hx, hxi⟩ := (mem_idsOf _ i).mp h
    obtain ⟨hxL, hxc⟩ := List.mem_filter.mp hx
    refine ⟨(mem_idsOf L i).mpr ⟨x, hxL, hxi⟩, ?_⟩
    intro hS
    rw [syncCreates, Option.isNone_iff_eq_none] at hxc
    obtain ⟨st, hst⟩ := lastWithId_isSome S x.id (hxi ▸ hS)
    rw [hxc] at hst
    cases hst
  · rintro ⟨hL, hS⟩
    obtain ⟨l, hl, hli⟩ := (mem_idsOf L i).mp hL
    refine (mem_idsOf _ i).mpr ⟨l, List.mem_filter.mpr ⟨hl, ?_⟩, hli⟩
    rw [syncCreates, lastWithId_eq_none S l.id (hli ▸ hS)]
    rfl

lemma mergeTasks_calls_mem (L S : List Task) (hLn : (idsOf L).Nodup)
    (hSn : (idsOf S).Nodup) (i : String) (x : Task) :
    (i, x) ∈ (mergeTasks L S).updateCalls ↔
      ∃ l s, l ∈ L ∧ s ∈ S ∧ l.id = i ∧ s.id = i ∧
        s.updatedAt < l.updatedAt ∧ x = l := by
  rw [mergeTasks_calls_def, callsAfter_filterMap S _ hSn]
  constructor
  · intro h
    obtain ⟨t, ht, hft⟩ := List.mem_filterMap.mp h
    cases hm : mapGet (buildLocalMap L) t.id with
    | none => simp [hm] at hft
    | some lt =>
      simp only [hm] at hft
      by_cases hge : t.updatedAt ≥ lt.updatedAt
      · rw [if_pos hge] at hft
        cases hft
      · rw [if_neg hge] at hft
        simp only [Option.some.injEq, Prod.mk.injEq] at hft
        obtain ⟨hti, hlx⟩ := hft
        rw [mapGet_buildLocalMap] at hm
        obtain ⟨hltL, hltid⟩ := lastWithId_mem L t.id lt hm
        refine ⟨lt, t, hltL, ht, hti ▸ hltid, hti, ?_, hlx.symm⟩
        omega
  · rintro ⟨l, s, hlL, hsS, hli, hsi, hlt, rfl⟩
    refine List.mem_filterMap.mpr ⟨s, hsS, ?_⟩
    have hm : mapGet (buildLocalMap L) s.id = some x := by
      rw [mapGet_buildLocalMap]
      exact lastWithId_nodup L s.id x hLn hlL (hli.trans hsi.symm)
    simp only [hm]
    rw [if_neg (by omega)]
    rw [hsi]

/-! ### TaskManager operation lemmas -/

lemma createTask_error (st : AppState) (now : Int) (newId : String) (d : TaskData)
    (hc : jsTrim (orDefault d.title "") = "") :
    createTask st now newId d = (.error "Task title is required", st) := by
  simp [createTask, mkNewTask, hc]

lemma createTask_ok (st : AppState) (now : Int) (newId : String) (d : TaskData)
    (hc : jsTrim (orDefault d.title "") ≠ "") :
    createTask st now newId d =
      (.ok (mkNewTask now newId d),
       { tasks := st.tasks ++ [mkNewTask now newId d],
         stored := saveTasksLocalStorage now (st.tasks ++ [mkNewTask now newId d]) }) := by
  simp [createTask, mkNewTask, hc]

lemma updateTask_notFound (st : AppState) (now : Int) (taskId : String)
    (u : TaskUpdates) (hf : st.tasks.findIdx? (fun t => t.id = taskId) = none) :
    updateTask st now taskId u = (.error "Task not found", st) := by
  simp [updateTask, hf]

lemma updateTask_badTitle (st : AppState) (now : Int) (taskId : String)
    (u : TaskUpdates) (j : Nat)
    (hf : st.tasks.findIdx? (fun t => t.id = taskId) = some j)
    (hc : jsTrim (applySpread (st.tasks.getD j default) u now).title = "") :
    updateTask st now taskId u = (.error "Task title is required", st) := by
  simp only [updateTask, hf]
  rw [if_pos hc]

lemma updateTask_ok (st : AppState) (now : Int) (taskId : String)
    (u : TaskUpdates) (j : Nat)
    (hf : st.tasks.findIdx? (fun t => t.id = taskId) = some j)
    (hc : jsTrim (applySpread (st.tasks.getD j default) u now).title ≠ "") :
    updateTask st now taskId u =
      (.ok (applySpread (st.tasks.getD j default) u now),
       { tasks := st.tasks.set j (applySpread (st.tasks.getD j default) u now),
         stored := saveTasksLocalStorage now
           (st.tasks.set j (applySpread (st.tasks.getD j default) u now)) }) := by
  simp only [updateTask, hf]
  rw [if_neg hc]

lemma trim_ne_empty (s : String) (h : jsTrim s ≠ "") : s ≠ "" := by
  intro e
  rw [e] at h
  exact h (by decide)

/-! ### Claim theorems -/

/-- C7: the Local Task Store's load returns the empty collection whenever
nothing is persisted (the cell is empty), the stored string is unreadable
(JSON.parse throws), or the parsed value carries no tasks array; it never
throws for absent data (it is total on the stored cell), and the public
StorageManager.loadTasks delegates to it on the localStorage backend. -/
theorem c7_load_empty_on_missing_or_corrupt :
    loadTasksLocalStorage (StoredCell.empty : StoredCell RawTask) = []
    ∧ loadTasksLocalStorage (StoredCell.malformed : StoredCell RawTask) = []
    ∧ loadTasksLocalStorage (StoredCell.noTasksArray : StoredCell RawTask) = []
    ∧ ∀ cell : StoredCell RawTask,
        StorageManager.loadTasks cell = loadTasksLocalStorage cell :=
  ⟨rfl, rfl, rfl, fun _ => rfl⟩

/-- C8: saving any task array to the Local Task Store and loading it back
returns exactly the same array — list equality, hence order-independent set
equality, with every field of every entry preserved losslessly. -/
theorem c8_save_load_roundtrip :
    ∀ (α : Type) (now : Int) (ts : List α),
    loadTasksLocalStorage (saveTasksLocalStorage now ts) = ts
    ∧ StorageManager.loadTasks (saveTasksLocalStorage now ts) = ts :=
  fun _ _ _ => ⟨rfl, rfl⟩

/-- C6 counterexample: a stored entry whose title field is absent is not
dropped by load — loadTasksLocalStorage returns it unchanged even though it
fails the required-field check, refuting the claim that load drops entries
missing required fields. -/
theorem c6_counterexample :
    StorageManager.loadTasks (StoredCell.tasksArr "1.0" 0 [rawNoTitle]) = [rawNoTitle]
    ∧ rawTaskValid rawNoTitle = false := by
  exact ⟨rfl, by decide⟩

/-- C6 amended: load returns the stored entries as-is (never failing
because of malformed entries); the dropping of entries missing id, title,
createdAt or updatedAt is performed by the separate cleanup method, which
filters with the required-field truthiness check, returns only valid
entries, and re-saves the filtered list exactly when something was
dropped. -/
theorem c6_cleanup_drops_invalid :
    ∀ (v : String) (ts : List RawTask) (now ts2 : Int) (cell : StoredCell RawTask),
    StorageManager.loadTasks (StoredCell.tasksArr v ts2 ts) = ts
    ∧ (cleanup now cell).1 = (StorageManager.loadTasks cell).filter rawTaskValid
    ∧ (∀ t ∈ (cleanup now cell).1, rawTaskValid t = true)
    ∧ (((StorageManager.loadTasks cell).filter rawTaskValid).length ≠
          (StorageManager.loadTasks cell).length →
        (cleanup now cell).2 = saveTasksLocalStorage now
          ((StorageManager.loadTasks cell).filter rawTaskValid))
    ∧ (((StorageManager.loadTasks cell).filter rawTaskValid).length =
          (StorageManager.loadTasks cell).length →
        (cleanup now cell).2 = cell) := by
  intro v ts now ts2 cell
  have hfst : (cleanup now cell).1 =
      (StorageManager.loadTasks cell).filter rawTaskValid := by
    rw [cleanup]
    split <;> rfl
  refine ⟨rfl, hfst, ?_, ?_, ?_⟩
  · intro t ht
    rw [hfst] at ht
    exact (List.mem_filter.mp ht).2
  · intro h
    rw [cleanup]
    rw [if_pos h]
  · intro h
    rw [cleanup]
    rw [if_neg (fun hc => hc h)]

/-- C6 witness for the amended theorem: on a cell holding one invalid
entry, cleanup returns the empty valid list and re-saves it. -/
theorem c6_cleanup_witness :
    (cleanup 7 (StoredCell.tasksArr "1.0" 0 [rawNoTitle])).2 =
      saveTasksLocalStorage 7
        ((StorageManager.loadTasks (StoredCell.tasksArr "1.0" 0 [rawNoTitle])).filter
          rawTaskValid) :=
  (c6_cleanup_drops_invalid "1.0" [rawNoTitle] 7 0
    (StoredCell.tasksArr "1.0" 0 [rawNoTitle])).2.2.2.1 (by decide)

/-- C5: reconciliation is deterministic — both the client merge and the
server sync merge pass are functions of their two input collections alone
(neither embedding takes a clock, because the source reads no wall clock
during the merge: its only Date constructions parse the updatedAt fields of
the inputs), so identical inputs yield identical merged, tasksToCreate and
tasksToUpdate results on every invocation. -/
theorem c5_deterministic :
    ∀ (L S L2 S2 : List Task), L = L2 → S = S2 →
    mergeTasks L S = mergeTasks L2 S2
    ∧ serverSyncMerge L S = serverSyncMerge L2 S2 := by
  intro L S L2 S2 hL hS
  rw [hL, hS]
  exact ⟨rfl, rfl⟩

/-- C5 witness: the determinism theorem applied at a concrete input. -/
theorem c5_deterministic_witness :
    mergeTasks [taskA2] [taskA1] = mergeTasks [taskA2] [taskA1]
    ∧ serverSyncMerge [taskA2] [taskA1] = serverSyncMerge [taskA2] [taskA1] :=
  c5_deterministic [taskA2] [taskA1] [taskA2] [taskA1] rfl rfl

/-- C1 counterexample: with serverTasks holding two entries of one id where
the last-seen entry (taskA1) is older than the first (taskA2), the client
merge keeps the first entry and drops the last-seen one, refuting the
last-seen-wins reading; and in the server sync merge pass a client-only id
(taskB) is missing from mergedTasks even though it occurs in the inputs. -/
theorem c1_counterexample :
    (mergeTasks [] [taskA2, taskA1]).merged = [taskA2]
    ∧ taskA1 ∉ (mergeTasks [] [taskA2, taskA1]).merged
    ∧ (serverSyncMerge [taskB] []).mergedTasks = []
    ∧ taskB.id ∈ idsOf [taskB] :=
  ⟨by decide, by decide, by decide, by decide⟩

/-- C1 amended: in the client merge, merged covers exactly the union of the
input ids, each id occurring at most once; the retained entry for an id is
the last local occurrence folded with the server occurrences of that id
under the recency rule — so duplicates inside localTasks resolve to the
last-seen entry, while a duplicate inside serverTasks replaces the retained
entry only when its updatedAt is at least the retained entry's.  In the
server sync merge pass, mergedTasks covers exactly the ids present on the
server; ids present only on the client are routed to tasksToCreate instead
of merged. -/
theorem c1_merged_ids :
    ∀ (L S : List Task) (i : String),
    (i ∈ idsOf (mergeTasks L S).merged ↔ (i ∈ idsOf L ∨ i ∈ idsOf S))
    ∧ (idsOf (mergeTasks L S).merged).Nodup
    ∧ (mergeTasks L S).merged.find? (fun t => t.id = i) =
        serverFold (lastWithId L i) (S.filter (fun t => t.id = i))
    ∧ (i ∈ idsOf (serverSyncMerge L S).mergedTasks ↔ i ∈ idsOf S)
    ∧ (i ∈ idsOf (serverSyncMerge L S).tasksToCreate ↔
        (i ∈ idsOf L ∧ i ∉ idsOf S)) := by
  intro L S i
  exact ⟨mergeTasks_mem_ids L S i, mergeTasks_nodup_ids L S,
    mergeTasks_find L S i, serverSync_merged_ids L S i,
    serverSync_toCreate_ids L S i⟩

/-- C4 counterexample: merging a local task that is strictly newer than the
server copy of the same id makes TaskManager.mergeTasks fire a network call
inside the loop — the apiClient.updateTask call list is nonempty — refuting
the claim that computing the merge performs no network calls. -/
theorem c4_counterexample :
    (mergeTasks [taskA2] [taskA1]).updateCalls = [("a", taskA2)]
    ∧ (mergeTasks [taskA2] [taskA1]).updateCalls ≠ [] :=
  ⟨by decide, by decide⟩

/-- C4 amended: the client merge mutates no task-collection state and its
result is a function of its two inputs alone, but it is not network-free:
on duplicate-free inputs it fires exactly one fire-and-forget
apiClient.updateTask call per id present in both collections whose local
copy is strictly newer, passing that id and the local version; it issues no
other network calls and schedules no creates, which are left to other code
paths. -/
theorem c4_update_calls :
    ∀ (L S : List Task), (idsOf L).Nodup → (idsOf S).Nodup →
    ∀ (i : String) (x : Task),
    ((i, x) ∈ (mergeTasks L S).updateCalls ↔
      ∃ l s, l ∈ L ∧ s ∈ S ∧ l.id = i ∧ s.id = i ∧
        s.updatedAt < l.updatedAt ∧ x = l) := by
  intro L S hLn hSn i x
  exact mergeTasks_calls_mem L S hLn hSn i x

/-- C4 witness for the amended theorem: the characterization applied at a
concrete conflicting input produces the one expected update call. -/
theorem c4_update_calls_witness :
    ("a", taskA2) ∈ (mergeTasks [taskA2] [taskA1]).updateCalls :=
  (c4_update_calls [taskA2] [taskA1] (by decide) (by decide) "a" taskA2).mpr
    ⟨taskA2, taskA1, by decide, by decide, by decide, by decide, by decide, rfl⟩

/-- C2: for an id present in both duplicate-free collections, when the
local copy's updatedAt is strictly greater the merged result keeps the
local version and the id is scheduled as a server update (the fired
updateTask call on the client, tasksToUpdate on the server); otherwise,
including the tie, the server version is kept and no server write — update
or create — is scheduled for that id, in both the client merge and the
server sync merge pass. -/
theorem c2_recency_conflict_rule :
    ∀ (L S : List Task) (i : String) (localTask serverTask : Task),
    (idsOf L).Nodup → (idsOf S).Nodup →
    localTask ∈ L → serverTask ∈ S → localTask.id = i → serverTask.id = i →
    ((serverTask.updatedAt < localTask.updatedAt →
        localTask ∈ (mergeTasks L S).merged
        ∧ (i, localTask) ∈ (mergeTasks L S).updateCalls
        ∧ localTask ∈ (serverSyncMerge L S).mergedTasks
        ∧ localTask ∈ (serverSyncMerge L S).tasksToUpdate)
     ∧ (localTask.updatedAt ≤ serverTask.updatedAt →
        serverTask ∈ (mergeTasks L S).merged
        ∧ (∀ x, (i, x) ∉ (mergeTasks L S).updateCalls)
        ∧ serverTask ∈ (serverSyncMerge L S).mergedTasks
        ∧ (∀ x ∈ (serverSyncMerge L S).tasksToUpdate, x.id ≠ i)
        ∧ (∀ x ∈ (serverSyncMerge L S).tasksToCreate, x.id ≠ i))) := by
  intro L S i localTask serverTask hLn hSn hlL hsS hli hsi
  have hlast : lastWithId L i = some localTask :=
    lastWithId_nodup L i localTask hLn hlL hli
  have hlastS : lastWithId S i = some serverTask :=
    lastWithId_nodup S i serverTask hSn hsS hsi
  have hfilter : S.filter (fun t => t.id = i) = [serverTask] :=
    filter_eq_single S i serverTask hSn hsS hsi
  have hfind : (mergeTasks L S).merged.find? (fun t => t.id = i) =
      recencyStep (some localTask) serverTask := by
    rw [mergeTasks_find, hlast, hfilter]
    rfl
  constructor
  · intro hlt
    have hstep : recencyStep (some localTask) serverTask = some localTask := by
      rw [recencyStep, if_neg (by omega)]
    refine ⟨List.mem_of_find?_eq_some (hfind.trans hstep), ?_, ?_, ?_⟩
    · exact (mergeTasks_calls_mem L S hLn hSn i localTask).mpr
        ⟨localTask, serverTask, hlL, hsS, hli, hsi, hlt, rfl⟩
    · rw [serverSync_merged_eq]
      refine List.mem_append.mpr (Or.inl (List.mem_filterMap.mpr ⟨localTask, hlL, ?_⟩))
      simp only [syncMergedOf, hli, hlastS]
      rw [if_pos (by omega)]
    · rw [serverSync_toUpdate_eq]
      refine List.mem_filter.mpr ⟨hlL, ?_⟩
      simp only [syncUpdates, hli, hlastS, decide_eq_true_eq]
      omega
  · intro hle
    have hstep : recencyStep (some localTask) serverTask = some serverTask := by
      rw [recencyStep, if_pos (by omega)]
    refine ⟨List.mem_of_find?_eq_some (hfind.trans hstep), ?_, ?_, ?_, ?_⟩
    · intro x hx
      obtain ⟨l, s, hl2, hs2, hli2, hsi2, hlt2, _⟩ :=
        (mergeTasks_calls_mem L S hLn hSn i x).mp hx
      have hl3 : l = localTask :=
        nodup_ids_unique L hLn l hl2 localTask hlL (hli2.trans hli.symm)
      have hs3 : s = serverTask :=
        nodup_ids_unique S hSn s hs2 serverTask hsS (hsi2.trans hsi.symm)
      rw [hl3, hs3] at hlt2
      omega
    · rw [serverSync_merged_eq]
      refine List.mem_append.mpr (Or.inl (List.mem_filterMap.mpr ⟨localTask, hlL, ?_⟩))
      simp only [syncMergedOf, hli, hlastS]
      rw [if_neg (by omega)]
    · intro x hx hxi
      rw [serverSync_toUpdate_eq] at hx
      obtain ⟨hxL, hu⟩ := List.mem_filter.mp hx
      simp only [syncUpdates, hxi, hlastS, decide_eq_true_eq] at hu
      have hx3 : x = localTask :=
        nodup_ids_unique L hLn x hxL localTask hlL (hxi.trans hli.symm)
      rw [hx3] at hu
      omega
    · intro x hx hxi
      rw [serverSync_toCreate_eq] at hx
      obtain ⟨hxL, hc⟩ := List.mem_filter.mp hx
      simp [syncCreates, hxi, hlastS] at hc

/-- C2 witness: the conflict rule applied at a concrete input where the
local copy is strictly newer. -/
theorem c2_recency_witness :
    taskA2 ∈ (mergeTasks [taskA2] [taskA1]).merged
    ∧ ("a", taskA2) ∈ (mergeTasks [taskA2] [taskA1]).updateCalls
    ∧ taskA2 ∈ (serverSyncMerge [taskA2] [taskA1]).mergedTasks
    ∧ taskA2 ∈ (serverSyncMerge [taskA2] [taskA1]).tasksToUpdate :=
  (c2_recency_conflict_rule [taskA2] [taskA1] "a" taskA2 taskA1 (by decide) (by decide)
    (by decide) (by decide) (by decide) (by decide)).1 (by decide)

/-- C3 counterexample: for the local-only task taskB (L = [taskB], S = []),
the client merge includes it in merged but schedules no server write at
all — TaskManager.mergeTasks has no create list and its update-call list is
empty — while the server sync merge pass puts it in tasksToCreate but
leaves mergedTasks empty; so in neither implementation does the pure
reconciliation result both contain the local version in merged and carry
the id in a create set. -/
theorem c3_counterexample :
    (mergeTasks [taskB] []).merged = [taskB]
    ∧ (mergeTasks [taskB] []).updateCalls = []
    ∧ (serverSyncMerge [taskB] []).tasksToCreate = [taskB]
    ∧ (serverSyncMerge [taskB] []).mergedTasks = [] :=
  ⟨by decide, by decide, by decide, by decide⟩

/-- C3 amended: for an id present in duplicate-free localTasks and absent
from serverTasks — the client merge includes the local version in merged
and fires no update call for it (it schedules no creates at all); the
server sync routes the task to tasksToCreate, its merge pass's mergedTasks
does not contain the id, and when the subsequent insert is applied and
returns a row for the task, that stored row is in the resulting merged
list. -/
theorem c3_local_only :
    ∀ (L S : List Task) (i : String) (t : Task),
    (idsOf L).Nodup → t ∈ L → t.id = i → i ∉ idsOf S →
    (t ∈ (mergeTasks L S).merged
     ∧ (∀ x, (i, x) ∉ (mergeTasks L S).updateCalls)
     ∧ t ∈ (serverSyncMerge L S).tasksToCreate
     ∧ i ∉ idsOf (serverSyncMerge L S).mergedTasks
     ∧ ∀ (ins : Task → Option Task) (row : Task),
         (∀ u r2, ins u = some r2 → r2.id = u.id) → ins t = some row →
         row ∈ applyCreates ins (serverSyncMerge L S).mergedTasks
                 (serverSyncMerge L S).tasksToCreate) := by
  intro L S i t hLn htL hti hiS
  have hlast : lastWithId L i = some t := lastWithId_nodup L i t hLn htL hti
  have hfilter : S.filter (fun u => u.id = i) = [] := filter_id_eq_nil S i hiS
  have hmerged : t ∈ (mergeTasks L S).merged := by
    have hfind : (mergeTasks L S).merged.find? (fun u => u.id = i) = some t := by
      rw [mergeTasks_find, hlast, hfilter]
      rfl
    exact List.mem_of_find?_eq_some hfind
  have hnocall : ∀ x, (i, x) ∉ (mergeTasks L S).updateCalls := by
    intro x hx
    rw [mergeTasks_calls_def] at hx
    exact hiS (callsAfter_key S _ i x hx)
  have hcreate : t ∈ (serverSyncMerge L S).tasksToCreate := by
    rw [serverSync_toCreate_eq]
    refine List.mem_filter.mpr ⟨htL, ?_⟩
    rw [syncCreates, lastWithId_eq_none S t.id (hti ▸ hiS)]
    rfl
  have hnomergeds : i ∉ idsOf (serverSyncMerge L S).mergedTasks :=
    fun h => hiS ((serverSync_merged_ids L S i).mp h)
  refine ⟨hmerged, hnocall, hcreate, hnomergeds, ?_⟩
  intro ins row hid hins
  have hnodupcs : (idsOf (serverSyncMerge L S).tasksToCreate).Nodup := by
    rw [serverSync_toCreate_eq]
    have hsub : List.Sublist (idsOf (L.filter (syncCreates S))) (idsOf L) := by
      rw [idsOf, idsOf]
      exact List.Sublist.map (fun u => u.id) (List.filter_sublist L)
    exact List.Nodup.sublist hsub hLn
  exact applyCreates_mem ins hid _ _ t row hnodupcs hcreate hins (hti ▸ hnomergeds)

/-- C3 witness for the amended theorem: with an always-succeeding identity
insert, the applied create lands the local-only task in the merged list. -/
theorem c3_local_only_witness :
    taskB ∈ applyCreates (fun u => some u) (serverSyncMerge [taskB] []).mergedTasks
      (serverSyncMerge [taskB] []).tasksToCreate :=
  (c3_local_only [taskB] [] "b" taskB (by decide) (by decide) (by decide)
    (by decide)).2.2.2.2 (fun u => some u) taskB
    (fun u r2 h => by injection h with h2; rw [← h2]) rfl

/-- C9 counterexample: TaskManager.loadTasks performs no title validation —
loading a persisted state that holds a task with an empty title installs
that task in the manager's collection, so the load operation does not
preserve the non-empty-title invariant. -/
theorem c9_counterexample :
    taskEmptyTitle ∈ (TaskManager.loadTasks stateWithEmptyTitleStored).tasks
    ∧ taskEmptyTitle.title = "" :=
  ⟨by decide, rfl⟩

/-- C9 amended: createTask and updateTask only ever add a task whose
trimmed title is nonempty, so a collection of nonempty-titled tasks stays
one through them, and mergeTasks preserves the invariant whenever both
inputs satisfy it; TaskManager.loadTasks however installs the stored
entries without validation and can introduce empty-titled tasks (see the
counterexample). -/
theorem c9_title_invariant :
    ∀ (st : AppState) (now : Int) (newId : String) (d : TaskData)
      (taskId : String) (u : TaskUpdates) (L S : List Task),
    (∀ t ∈ st.tasks, t.title ≠ "") →
    ((∀ t ∈ ((createTask st now newId d).2).tasks, t.title ≠ "")
     ∧ (∀ t ∈ ((updateTask st now taskId u).2).tasks, t.title ≠ "")
     ∧ ((∀ t ∈ L, t.title ≠ "") → (∀ t ∈ S, t.title ≠ "") →
        ∀ t ∈ (mergeTasks L S).merged, t.title ≠ "")) := by
  intro st now newId d taskId u L S hst
  refine ⟨?_, ?_, ?_⟩
  · by_cases hc : jsTrim (orDefault d.title "") = ""
    · rw [createTask_error st now newId d hc]
      exact hst
    · rw [createTask_ok st now newId d hc]
      intro t ht
      rcases List.mem_append.mp ht with ht | ht
      · exact hst t ht
      · rw [List.mem_singleton] at ht
        rw [ht]
        exact trim_ne_empty _ hc
  · cases hf : st.tasks.findIdx? (fun t => t.id = taskId) with
    | none =>
      rw [updateTask_notFound st now taskId u hf]
      exact hst
    | some j =>
      by_cases hc : jsTrim (applySpread (st.tasks.getD j default) u now).title = ""
      · rw [updateTask_badTitle st now taskId u j hf hc]
        exact hst
      · rw [updateTask_ok st now taskId u j hf hc]
        intro t ht
        rcases List.mem_or_eq_of_mem_set ht with ht | ht
        · exact hst t ht
        · rw [ht]
          exact trim_ne_empty _ hc
  · intro hL hS t ht
    rcases mergeTasks_mem L S t ht with h | h
    · exact hL t h
    · exact hS t h

/-- C9 witness for the amended theorem: after creating a titled task in the
empty state, the held task's title is nonempty. -/
theorem c9_title_invariant_witness :
    (mkNewTask 1 "n" dGood).title ≠ "" :=
  (c9_title_invariant emptyState 1 "n" dGood "x" uNone [] []
    (by intro t ht; simp [emptyState] at ht)).1 (mkNewTask 1 "n" dGood) (by decide)

/-- C10: createTask throws exactly when the title — after the JavaScript
or-default — trims to the empty string (absent, empty or whitespace-only),
and updateTask throws exactly when no held task has the given id or when
the title resulting from the object spread trims to empty; in every error
case the returned state is the input state — the task collection and the
persisted cell are untouched, because both throws happen before any
mutation.  The storage save is modelled as total; its own failure modes
are outside this embedding. -/
theorem c10_error_atomicity :
    ∀ (st : AppState) (now : Int) (newId : String) (d : TaskData)
      (taskId : String) (u : TaskUpdates),
    ((jsTrim (orDefault d.title "") = "" →
        (createTask st now newId d).1 = Except.error "Task title is required"
        ∧ (createTask st now newId d).2 = st)
     ∧ (jsTrim (orDefault d.title "") ≠ "" →
        (createTask st now newId d).1 = Except.ok (mkNewTask now newId d))
     ∧ (st.tasks.findIdx? (fun t => t.id = taskId) = none →
        (updateTask st now taskId u).1 = Except.error "Task not found"
        ∧ (updateTask st now taskId u).2 = st)
     ∧ (∀ j, st.tasks.findIdx? (fun t => t.id = taskId) = some j →
        ((jsTrim (applySpread (st.tasks.getD j default) u now).title = "" →
           (updateTask st now taskId u).1 = Except.error "Task title is required"
           ∧ (updateTask st now taskId u).2 = st)
         ∧ (jsTrim (applySpread (st.tasks.getD j default) u now).title ≠ "" →
           (updateTask st now taskId u).1 =
             Except.ok (applySpread (st.tasks.getD j default) u now))))) := by
  intro st now newId d taskId u
  refine ⟨?_, ?_, ?_, ?_⟩
  · intro hc
    rw [createTask_error st now newId d hc]
    exact ⟨rfl, rfl⟩
  · intro hc
    rw [createTask_ok st now newId d hc]
  · intro hf
    rw [updateTask_notFound st now taskId u hf]
    exact ⟨rfl, rfl⟩
  · intro j hf
    constructor
    · intro hc
      rw [updateTask_badTitle st now taskId u j hf hc]
      exact ⟨rfl, rfl⟩
    · intro hc
      rw [updateTask_ok st now taskId u j hf hc]

/-- C10 witness: creating a task with no title in the empty state errors
and leaves the state untouched. -/
theorem c10_error_atomicity_witness :
    (createTask emptyState 1 "n" dNoTitle).1 = Except.error "Task title is required"
    ∧ (createTask emptyState 1 "n" dNoTitle).2 = emptyState :=
  (c10_error_atomicity emptyState 1 "n" dNoTitle "x" uNone).1 (by decide)

end TaskFlow
